import Mathlib

/-!
Verification development for the TokenFi staking aggregator (src/main.py).

The program aggregates staking records of one contract deployed on two
chains.  Its core pieces, shallowly embedded here:

* get_user_stakes (main.py 56-71): per-address contract read wrapped in
  try/except; an exception is logged and turned into the sentinel None,
  modelled as Option.none.  External fallible calls are modelled as
  functions into Except String (ok payload / raised exception message).
* fetch_staked_addresses_eth (main.py 74-93): event-scan discovery; the
  whole query sits in a try/except that degrades any failure to the
  empty set.
* fetch_staked_addresses_bsc (main.py 96-125): history-scan discovery; a
  cursor-paginated loop over a transaction-history endpoint with page
  size 10000, no exception handling.  The unbounded Python while-loop is
  embedded with explicit fuel (none = fuel exhausted); the list of
  requested cursor blocks is recorded so that the number of page
  requests and the cursor sequence are observable.  The courtesy
  time.sleep(1) between pages has no observable effect on the result and
  is omitted.
* build_staking_dataframe (main.py 128-160): row-per-stake table with
  scaled amounts and per-address totals (pandas groupby + merge is
  embedded as: each row carries the sum of the scaled amounts of all
  rows sharing its address).  The pandas to_datetime conversion of the
  expiration epoch seconds is an injective timestamp rendering and the
  timestamp is kept as the raw epoch-seconds integer.
* main (main.py 167-187): checksum normalization of the BSC discovery
  output (line 181) and concatenation of the two per-chain tables
  (line 185).

Amount scaling divides by DECIMALS = 10^9; amounts are modelled as exact
rationals.
-/

namespace StakingSpec

/-- Fixed decimal scale of the token, main.py line 18. -/
def DECIMALS : Nat := 10 ^ 9

/-- One stake entry as returned by getUserStakes: (raw amount, expiration
timestamp in epoch seconds), both uint256, modelled as Nat. -/
abbrev StakeEntry := Nat × Nat

/-- Result of one fallible external call: ok payload, or the message of a
raised exception. -/
abbrev Call (α : Type) := Except String α

/-- Embeds get_user_stakes (main.py 56-71): the contract read call is
wrapped in try/except; on an exception the function logs and returns the
sentinel None (here Option.none), on success the returned stake list. -/
def get_user_stakes (call : String → Call (List StakeEntry)) (address : String) :
    Option (List StakeEntry) :=
  match call address with
  | .ok stakes => some stakes
  | .error _ => none

/-- Block-range bound of the event filter: a concrete block number or the
string 'latest'. -/
inductive BlockRef
  | num (n : Nat)
  | latest
deriving DecidableEq, Repr

/-- One Staked event; only the user field is read by the program. -/
structure StakedEvent where
  user : String
deriving DecidableEq, Repr

/-- Embeds fetch_staked_addresses_eth (main.py 74-93): the filter creation
and entry retrieval are one fallible query; inside try/except, a failure
degrades to the empty set, success yields the set of user fields. -/
def fetch_staked_addresses_eth (query : Nat → BlockRef → Call (List StakedEvent))
    (from_block : Nat) (to_block : BlockRef) : Finset String :=
  match query from_block to_block with
  | .ok events => (events.map StakedEvent.user).toFinset
  | .error _ => ∅

/-- One transaction record of the BscScan txlist response; the program
reads the JSON fields 'from' (here sender) and 'blockNumber' (decoded by
int(...), here Nat). -/
structure BscTx where
  sender : String
  blockNumber : Nat
deriving DecidableEq, Repr

/-- Embeds the while-loop of fetch_staked_addresses_bsc (main.py 110-123)
with explicit fuel.  Arguments after the endpoint: fuel, the cursor
startblock, the accumulator all_transactions, and the list of cursor
blocks requested so far (instrumentation making the page requests
observable).  Returns none when fuel runs out; an endpoint error
propagates (the source has no try/except here); otherwise the final
(requested cursors, accumulated transactions). -/
def bscLoop (endpoint : Nat → Call (List BscTx)) :
    Nat → Nat → List BscTx → List Nat → Option (Call (List Nat × List BscTx))
  | 0, _, _, _ => none
  | fuel + 1, startblock, all_transactions, requested =>
    match endpoint startblock with
    | .error e => some (.error e)
    | .ok txs =>
      match txs.getLast? with
      | none => some (.ok (requested ++ [startblock], all_transactions))
      | some lastTx =>
        if txs.length < 10000 then
          some (.ok (requested ++ [startblock], all_transactions ++ txs))
        else
          bscLoop endpoint fuel (lastTx.blockNumber + 1)
            (all_transactions ++ txs) (requested ++ [startblock])

/-- Embeds fetch_staked_addresses_bsc (main.py 96-125): runs the paginated
loop from the hard-coded startblock 34181130 and returns the set of
sender ('from') fields of all collected transactions, together with the
requested cursor blocks. -/
def fetch_staked_addresses_bsc (endpoint : Nat → Call (List BscTx)) (fuel : Nat) :
    Option (Call (List Nat × Finset String)) :=
  match bscLoop endpoint fuel 34181130 [] [] with
  | none => none
  | some (.error e) => some (.error e)
  | some (.ok (requested, all_transactions)) =>
      some (.ok (requested, (all_transactions.map BscTx.sender).toFinset))

/-- Amount scaling used by build_staking_dataframe (main.py 147):
stake[0] / DECIMALS, as an exact rational. -/
def scaleAmount (raw : Nat) : ℚ := (raw : ℚ) / (DECIMALS : ℚ)

/-- One row of the per-stake data list before the chain label and the
per-address total are attached (main.py 145-149). -/
structure PreRow where
  address : String
  staking_amount : ℚ
  expiration_date : Nat
deriving DecidableEq, Repr

/-- One row of the final staking table (columns of main.py 145-159). -/
structure StakingRow where
  address : String
  staking_amount : ℚ
  expiration_date : Nat
  chain : String
  total_staked_amount : ℚ
deriving DecidableEq, Repr

/-- Rows contributed by one non-empty stake list: one per stake entry
(main.py 144-149). -/
def stakeRows (address : String) (stakes : List StakeEntry) : List PreRow :=
  stakes.map fun stake => ⟨address, scaleAmount stake.1, stake.2⟩

/-- Rows contributed by one address in the loop of main.py 141-149: the
fetch result passes the Python truthiness test (if stakes:) only when it
is neither the None sentinel nor the empty list. -/
def addressRows (call : String → Call (List StakeEntry)) (address : String) : List PreRow :=
  match get_user_stakes call address with
  | none => []
  | some [] => []
  | some stakes => stakeRows address stakes

/-- Concatenated per-stake data over the iterated addresses
(main.py 140-151). -/
def preRows (call : String → Call (List StakeEntry)) (addresses : List String) : List PreRow :=
  addresses.flatMap (addressRows call)

/-- Per-address total of main.py 157-158: the sum of staking_amount over
all rows of the given list sharing the address. -/
def totalFor (rows : List PreRow) (address : String) : ℚ :=
  ((rows.filter fun r => r.address = address).map PreRow.staking_amount).sum

/-- Embeds build_staking_dataframe (main.py 128-160): builds the per-stake
rows, then attaches the chain label and, per row, the total of all rows
sharing its address (groupby 'address' sum + merge, main.py 156-159).
On an empty row list the result is the empty table, matching the early
return of main.py 152-153. -/
def build_staking_dataframe (call : String → Call (List StakeEntry))
    (addresses : List String) (chain_name : String) : List StakingRow :=
  (preRows call addresses).map fun r =>
    ⟨r.address, r.staking_amount, r.expiration_date, chain_name,
      totalFor (preRows call addresses) r.address⟩

/-- Embeds main.py line 181: every address of the BSC discovery output is
mapped to its checksum form before the BSC table build. -/
def stakers_bsc_checksum (to_checksum_address : String → String)
    (stakers_bsc : Finset String) : Finset String :=
  stakers_bsc.image to_checksum_address

/-- Embeds main.py line 185: the combined report is the concatenation of
the ETH table followed by the BSC table (pd.concat keeps row order;
ignore_index only renumbers the index column). -/
def combineReports (df_eth df_bsc : List StakingRow) : List StakingRow :=
  df_eth ++ df_bsc

/-- Response model of the BscScan txlist endpoint used for concrete runs:
the transactions of a fixed ledger with blockNumber at least the cursor,
in ledger order, capped at the page size 10000; never fails. -/
def endpointOf (ledger : List BscTx) (startblock : Nat) : Call (List BscTx) :=
  .ok ((ledger.filter fun t => startblock ≤ t.blockNumber).take 10000)

/-! Concrete collaborators used by witnesses. -/

/-- Contract-call model matching testable-property 6 of the spec: address A
has one stake, every other address has none. -/
def callA : String → Call (List StakeEntry) := fun address =>
  if address = "A" then .ok [(5000000000, 1700000000)] else .ok []

/-- Contract-call model where the address BAD reverts and every other
address has one stake. -/
def callBad : String → Call (List StakeEntry) := fun address =>
  if address = "BAD" then .error "execution reverted" else .ok [(1000000000, 7)]

/-- Event query that always fails. -/
def queryFail : Nat → BlockRef → Call (List StakedEvent) := fun _ _ => .error "connection reset"

/-- Checksum model used by the C4 witness: a concrete normalizer mapping
both casings of the same two-character address to one canonical form. -/
def checksumW : String → String := fun s =>
  if s = "aB" then "AB" else if s = "ab" then "AB" else s

/-- First response page of the mocked BscScan endpoint: exactly 10000
transactions, all from the same sender at block 50000000. -/
def pageOne : List BscTx := List.replicate 10000 ⟨"0xaa", 50000000⟩

/-- Second response page of the mocked BscScan endpoint: 3 transactions. -/
def pageTwo : List BscTx := [⟨"0xbb", 50000005⟩, ⟨"0xcc", 50000006⟩, ⟨"0xdd", 50000007⟩]

/-- Mocked BscScan endpoint of testable-property 7: a full page at the
initial cursor, a short page at the advanced cursor. -/
def endpointW : Nat → Call (List BscTx) := fun startblock =>
  if startblock = 34181130 then .ok pageOne
  else if startblock = 50000001 then .ok pageTwo
  else .ok []

/-- Endpoint whose every page request fails. -/
def endpointFail : Nat → Call (List BscTx) := fun _ => .error "HTTP 502"

/-- One-transaction ledger for the termination witness. -/
def ledgerW : List BscTx := [⟨"0xabc", 34181131⟩]

/-! Helper lemmas about the table builder. -/

theorem mem_stakeRows {address : String} {stakes : List StakeEntry} {r : PreRow} :
    r ∈ stakeRows address stakes ↔
      ∃ s ∈ stakes, (⟨address, scaleAmount s.1, s.2⟩ : PreRow) = r := by
  simp [stakeRows]

theorem addressRows_none {call : String → Call (List StakeEntry)} {address : String}
    (h : get_user_stakes call address = none) : addressRows call address = [] := by
  unfold addressRows
  rw [h]

theorem addressRows_some {call : String → Call (List StakeEntry)} {address : String}
    {stakes : List StakeEntry} (h : get_user_stakes call address = some stakes) :
    addressRows call address = stakeRows address stakes := by
  unfold addressRows
  rw [h]
  cases stakes with
  | nil => rfl
  | cons s rest => rfl

theorem address_of_mem_stakeRows {address : String} {stakes : List StakeEntry} {r : PreRow}
    (h : r ∈ stakeRows address stakes) : r.address = address := by
  obtain ⟨s, _, hs⟩ := mem_stakeRows.mp h
  rw [← hs]

theorem address_of_mem_addressRows {call : String → Call (List StakeEntry)}
    {address : String} {r : PreRow} (h : r ∈ addressRows call address) :
    r.address = address := by
  unfold addressRows at h
  cases hg : get_user_stakes call address with
  | none => rw [hg] at h; cases h
  | some stakes =>
      rw [hg] at h
      cases stakes with
      | nil => cases h
      | cons s rest => exact address_of_mem_stakeRows h

theorem mem_preRows {call : String → Call (List StakeEntry)} {addresses : List String}
    {r : PreRow} :
    r ∈ preRows call addresses ↔
      ∃ address ∈ addresses, ∃ stakes, get_user_stakes call address = some stakes ∧
        r ∈ stakeRows address stakes := by
  unfold preRows
  rw [List.mem_flatMap]
  constructor
  · rintro ⟨a, ha, hr⟩
    refine ⟨a, ha, ?_⟩
    unfold addressRows at hr
    cases hg : get_user_stakes call a with
    | none => rw [hg] at hr; cases hr
    | some stakes =>
        rw [hg] at hr
        cases stakes with
        | nil => cases hr
        | cons s rest => exact ⟨s :: rest, rfl, hr⟩
  · rintro ⟨a, ha, stakes, hst, hr⟩
    exact ⟨a, ha, (addressRows_some hst) ▸ hr⟩

theorem address_mem_of_mem_preRows {call : String → Call (List StakeEntry)}
    {addresses : List String} {r : PreRow} (h : r ∈ preRows call addresses) :
    r.address ∈ addresses := by
  obtain ⟨a, ha, hr⟩ := List.mem_flatMap.mp h
  rw [address_of_mem_addressRows hr]
  exact ha

theorem chain_of_mem_build {call : String → Call (List StakeEntry)}
    {addresses : List String} {chain_name : String} {row : StakingRow}
    (h : row ∈ build_staking_dataframe call addresses chain_name) :
    row.chain = chain_name := by
  unfold build_staking_dataframe at h
  obtain ⟨r, _, hr⟩ := List.mem_map.mp h
  rw [← hr]

theorem filter_addressRows_self (call : String → Call (List StakeEntry)) (address : String) :
    (addressRows call address).filter (fun r => r.address = address) =
      addressRows call address := by
  apply List.filter_eq_self.mpr
  intro r hr
  simp [address_of_mem_addressRows hr]

theorem filter_addressRows_ne (call : String → Call (List StakeEntry)) {a addr : String}
    (hne : a ≠ addr) :
    (addressRows call a).filter (fun r => r.address = addr) = [] := by
  rw [List.filter_eq_nil_iff]
  intro r hr
  simp only [decide_eq_true_eq]
  intro heq
  exact hne ((address_of_mem_addressRows hr) ▸ heq)

theorem filter_preRows_not_mem (call : String → Call (List StakeEntry))
    {addresses : List String} {addr : String} (h : addr ∉ addresses) :
    (preRows call addresses).filter (fun r => r.address = addr) = [] := by
  rw [List.filter_eq_nil_iff]
  intro r hr
  simp only [decide_eq_true_eq]
  intro heq
  exact h (heq ▸ address_mem_of_mem_preRows hr)

theorem filter_preRows_eq (call : String → Call (List StakeEntry)) :
    ∀ {addresses : List String} {addr : String}, addresses.Nodup → addr ∈ addresses →
      (preRows call addresses).filter (fun r => r.address = addr) = addressRows call addr := by
  intro addresses
  induction addresses with
  | nil => intro addr _ h; cases h
  | cons a rest ih =>
      intro addr hnd hmem
      rw [List.nodup_cons] at hnd
      have hcons : preRows call (a :: rest) = addressRows call a ++ preRows call rest := rfl
      rw [hcons, List.filter_append]
      rcases List.mem_cons.mp hmem with heq | hmem'
      · subst heq
        rw [filter_preRows_not_mem call hnd.1, filter_addressRows_self, List.append_nil]
      · have hne : a ≠ addr := fun h => hnd.1 (h ▸ hmem')
        rw [filter_addressRows_ne call hne, List.nil_append]
        exact ih hnd.2 hmem'

theorem filter_build (call : String → Call (List StakeEntry)) (addresses : List String)
    (chain_name addr : String) :
    (build_staking_dataframe call addresses chain_name).filter (fun r => r.address = addr) =
      ((preRows call addresses).filter (fun r => r.address = addr)).map
        (fun r => ⟨r.address, r.staking_amount, r.expiration_date, chain_name,
          totalFor (preRows call addresses) r.address⟩) := by
  unfold build_staking_dataframe
  rw [List.filter_map]
  rfl

/-! Claim theorems. -/

/-- C5: for every query failure during event-scan address discovery, the
operation does not raise to its caller: it returns the empty set; on
success it returns the set of unique addresses in the user field of every
Staked event in the range. -/
theorem eth_event_scan_error_policy (query : Nat → BlockRef → Call (List StakedEvent))
    (from_block : Nat) (to_block : BlockRef) :
    (∀ e, query from_block to_block = .error e →
       fetch_staked_addresses_eth query from_block to_block = ∅) ∧
    ∀ events, query from_block to_block = .ok events →
      fetch_staked_addresses_eth query from_block to_block =
        (events.map StakedEvent.user).toFinset ∧
      ∀ u, u ∈ fetch_staked_addresses_eth query from_block to_block ↔
        ∃ ev ∈ events, ev.user = u := by
  constructor
  · intro e he
    unfold fetch_staked_addresses_eth
    rw [he]
  · intro events he
    unfold fetch_staked_addresses_eth
    rw [he]
    refine ⟨rfl, ?_⟩
    intro u
    simp [List.mem_toFinset, List.mem_map]

/-- Witness for C5: a failing query yields the empty set. -/
theorem eth_event_scan_error_policy_witness :
    fetch_staked_addresses_eth queryFail 0 BlockRef.latest = ∅ :=
  (eth_event_scan_error_policy queryFail 0 BlockRef.latest).1 "connection reset" rfl

/-- C6: if the underlying contract read call raises, the stake fetcher
returns the sentinel None instead of propagating; on success it returns
the call result; consequently a failing address contributes nothing and
the rest of the batch builds exactly as if it were absent. -/
theorem get_user_stakes_error_isolation (call : String → Call (List StakeEntry))
    (address : String) :
    (∀ e, call address = .error e → get_user_stakes call address = none) ∧
    (∀ stakes, call address = .ok stakes → get_user_stakes call address = some stakes) ∧
    ∀ e, call address = .error e →
      ∀ pre post chain_name,
        build_staking_dataframe call (pre ++ address :: post) chain_name =
          build_staking_dataframe call (pre ++ post) chain_name := by
  refine ⟨?_, ?_, ?_⟩
  · intro e he
    unfold get_user_stakes
    rw [he]
  · intro stakes hs
    unfold get_user_stakes
    rw [hs]
  · intro e he pre post chain_name
    have hnone : get_user_stakes call address = none := by
      unfold get_user_stakes
      rw [he]
    have hpre : preRows call (pre ++ address :: post) = preRows call (pre ++ post) := by
      unfold preRows
      rw [List.flatMap_append, List.flatMap_cons, List.flatMap_append,
        addressRows_none hnone, List.nil_append]
    unfold build_staking_dataframe
    rw [hpre]

/-- Witness for C6: the reverting address BAD yields the sentinel and its
presence in the batch does not change the built table. -/
theorem get_user_stakes_error_isolation_witness :
    get_user_stakes callBad "BAD" = none ∧
    build_staking_dataframe callBad ["A", "BAD", "B"] "ETH" =
      build_staking_dataframe callBad ["A", "B"] "ETH" :=
  ⟨(get_user_stakes_error_isolation callBad "BAD").1 "execution reverted" rfl,
   (get_user_stakes_error_isolation callBad "BAD").2.2 "execution reverted" rfl
     ["A"] ["B"] "ETH"⟩

/-- C7: for every stake entry with raw integer amount R, the
staking_amount written to its row equals R / 10^9, a pure function of R
reversible by multiplying back (exactly, in the rational model). -/
theorem staking_amount_scaling (call : String → Call (List StakeEntry))
    (addresses : List String) (chain_name : String) :
    (∀ raw : Nat, scaleAmount raw = (raw : ℚ) / 10 ^ 9 ∧
      scaleAmount raw * 10 ^ 9 = (raw : ℚ)) ∧
    ∀ row ∈ build_staking_dataframe call addresses chain_name,
      ∃ address stakes s, address ∈ addresses ∧
        get_user_stakes call address = some stakes ∧ s ∈ stakes ∧
        row.staking_amount = scaleAmount s.1 ∧ row.staking_amount * 10 ^ 9 = (s.1 : ℚ) := by
  have hscale : ∀ raw : Nat, scaleAmount raw = (raw : ℚ) / 10 ^ 9 ∧
      scaleAmount raw * 10 ^ 9 = (raw : ℚ) := by
    intro raw
    have h1 : scaleAmount raw = (raw : ℚ) / 10 ^ 9 := by
      norm_num [scaleAmount, DECIMALS]
    refine ⟨h1, ?_⟩
    rw [h1, div_mul_cancel₀]
    norm_num
  refine ⟨hscale, ?_⟩
  intro row hrow
  unfold build_staking_dataframe at hrow
  obtain ⟨r, hr, hrf⟩ := List.mem_map.mp hrow
  obtain ⟨a, ha, stakes, hst, hmem⟩ := mem_preRows.mp hr
  obtain ⟨s, hs, hrs⟩ := mem_stakeRows.mp hmem
  refine ⟨a, stakes, s, ha, hst, hs, ?_, ?_⟩
  · rw [← hrf, ← hrs]
  · rw [← hrf, ← hrs]
    exact (hscale s.1).2

/-- Witness for C7: the scaling at the concrete raw amount 5000000000. -/
theorem staking_amount_scaling_witness :
    scaleAmount 5000000000 = (5000000000 : ℚ) / 10 ^ 9 ∧
    scaleAmount 5000000000 * 10 ^ 9 = (5000000000 : ℚ) :=
  (staking_amount_scaling callA ["A"] "ETH").1 5000000000

/-- C1: over a duplicate-free input address list, an address whose fetch
returns the sentinel or an empty stake list contributes zero rows; an
address with k stake entries contributes exactly k rows, and each of its
rows carries total_staked_amount equal to the sum of the staking_amount
values of its rows, which is the sum of its scaled stake amounts. -/
theorem build_rows_per_address (call : String → Call (List StakeEntry))
    (addresses : List String) (chain_name addr : String)
    (hnd : addresses.Nodup) (hmem : addr ∈ addresses) :
    ((get_user_stakes call addr = none ∨ get_user_stakes call addr = some []) →
       (build_staking_dataframe call addresses chain_name).filter
         (fun r => r.address = addr) = []) ∧
    ∀ stakes, get_user_stakes call addr = some stakes →
      ((build_staking_dataframe call addresses chain_name).filter
          (fun r => r.address = addr)).length = stakes.length ∧
      ∀ row ∈ build_staking_dataframe call addresses chain_name, row.address = addr →
        row.total_staked_amount =
          (((build_staking_dataframe call addresses chain_name).filter
              (fun r => r.address = addr)).map StakingRow.staking_amount).sum ∧
        row.total_staked_amount = (stakes.map fun s => scaleAmount s.1).sum := by
  have hfb := filter_build call addresses chain_name addr
  have hfp := filter_preRows_eq call hnd hmem
  constructor
  · intro hz
    rw [hfb, hfp]
    rcases hz with hnone | hnil
    · rw [addressRows_none hnone]
      rfl
    · rw [addressRows_some hnil]
      rfl
  · intro stakes hst
    have hrows : (preRows call addresses).filter (fun r => r.address = addr) =
        stakeRows addr stakes := by
      rw [hfp, addressRows_some hst]
    constructor
    · rw [hfb, hrows, List.length_map, stakeRows, List.length_map]
    · intro row hrow haddr
      obtain ⟨r, hr, hrf⟩ := List.mem_map.mp hrow
      have hraddr : r.address = addr := by
        rw [← hrf] at haddr
        exact haddr
      have htot : row.total_staked_amount = totalFor (preRows call addresses) addr := by
        rw [← hrf, ← hraddr]
      have hsum : totalFor (preRows call addresses) addr =
          (((build_staking_dataframe call addresses chain_name).filter
              (fun r => r.address = addr)).map StakingRow.staking_amount).sum := by
        rw [hfb, List.map_map]
        rfl
      refine ⟨htot.trans hsum, ?_⟩
      rw [htot]
      unfold totalFor
      rw [hrows, stakeRows, List.map_map]
      rfl

/-- Witness for C1: with address A holding one stake of raw amount
5000000000 and address B holding none, the table has exactly one row for
A and zero rows for B, and the A row total is the scaled stake sum. -/
theorem build_rows_per_address_witness :
    ((build_staking_dataframe callA ["A", "B"] "ETH").filter
        (fun r => r.address = "A")).length = 1 ∧
    (build_staking_dataframe callA ["A", "B"] "ETH").filter
        (fun r => r.address = "B") = [] :=
  ⟨((build_rows_per_address callA ["A", "B"] "ETH" "A" (by decide) (by decide)).2
      [(5000000000, 1700000000)] rfl).1,
   (build_rows_per_address callA ["A", "B"] "ETH" "B" (by decide) (by decide)).1
     (Or.inr rfl)⟩

/-- C8: the multiset of output rows of the table builder (full rows:
address, staking_amount, expiration_date, chain label and
total_staked_amount) is invariant under any reordering of the input
address list. -/
theorem build_perm_invariant (call : String → Call (List StakeEntry))
    (l₁ l₂ : List String) (chain_name : String) (h : l₁.Perm l₂) :
    (build_staking_dataframe call l₁ chain_name).Perm
      (build_staking_dataframe call l₂ chain_name) := by
  have hp : (preRows call l₁).Perm (preRows call l₂) := h.flatMap_right (addressRows call)
  have htot : ∀ a, totalFor (preRows call l₁) a = totalFor (preRows call l₂) a := by
    intro a
    unfold totalFor
    exact ((hp.filter (fun r => decide (r.address = a))).map PreRow.staking_amount).sum_eq
  have hfun : (fun r : PreRow => (⟨r.address, r.staking_amount, r.expiration_date, chain_name,
        totalFor (preRows call l₁) r.address⟩ : StakingRow)) =
      fun r : PreRow => ⟨r.address, r.staking_amount, r.expiration_date, chain_name,
        totalFor (preRows call l₂) r.address⟩ :=
    funext fun r => by rw [htot]
  unfold build_staking_dataframe
  rw [hfun]
  exact hp.map _

/-- Witness for C8: swapping the two input addresses permutes the table. -/
theorem build_perm_invariant_witness :
    (build_staking_dataframe callA ["A", "B"] "ETH").Perm
      (build_staking_dataframe callA ["B", "A"] "ETH") :=
  build_perm_invariant callA ["A", "B"] ["B", "A"] "ETH" (by decide)

/-- C3: the combined report is the concatenation of the ETH table followed
by the BSC table, preserving source order within each chain (characterized
positionally); when one side is empty the result is exactly the other
side, whose rows still carry their original chain label. -/
theorem combined_report_concat (call_eth call_bsc : String → Call (List StakeEntry))
    (eth_addrs bsc_addrs : List String) (df_eth df_bsc : List StakingRow)
    (hE : df_eth = build_staking_dataframe call_eth eth_addrs "ETH")
    (hB : df_bsc = build_staking_dataframe call_bsc bsc_addrs "BSC") :
    combineReports df_eth df_bsc = df_eth ++ df_bsc ∧
    (combineReports df_eth df_bsc).length = df_eth.length + df_bsc.length ∧
    (∀ i, i < df_eth.length → (combineReports df_eth df_bsc)[i]? = df_eth[i]?) ∧
    (∀ j, j < df_bsc.length →
      (combineReports df_eth df_bsc)[df_eth.length + j]? = df_bsc[j]?) ∧
    (df_eth = [] → combineReports df_eth df_bsc = df_bsc) ∧
    (df_bsc = [] → combineReports df_eth df_bsc = df_eth) ∧
    ∀ row ∈ combineReports df_eth df_bsc,
      (row ∈ df_eth ∧ row.chain = "ETH") ∨ (row ∈ df_bsc ∧ row.chain = "BSC") := by
  refine ⟨rfl, ?_, ?_, ?_, ?_, ?_, ?_⟩
  · exact List.length_append df_eth df_bsc
  · intro i hi
    exact List.getElem?_append_left hi
  · intro j hj
    rw [combineReports, List.getElem?_append_right (by omega)]
    congr 1
    omega
  · intro h
    rw [combineReports, h, List.nil_append]
  · intro h
    rw [combineReports, h, List.append_nil]
  · intro row hrow
    rcases List.mem_append.mp hrow with hmem | hmem
    · exact Or.inl ⟨hmem, chain_of_mem_build (hE ▸ hmem)⟩
    · exact Or.inr ⟨hmem, chain_of_mem_build (hB ▸ hmem)⟩

/-- Witness for C3: with an empty ETH table (no discovered addresses) and
a one-row BSC table, the combined report is exactly the BSC table. -/
theorem combined_report_concat_witness :
    combineReports (build_staking_dataframe callA [] "ETH")
        (build_staking_dataframe callA ["A"] "BSC") =
      build_staking_dataframe callA ["A"] "BSC" :=
  (combined_report_concat callA callA [] ["A"]
      (build_staking_dataframe callA [] "ETH")
      (build_staking_dataframe callA ["A"] "BSC") rfl rfl).2.2.2.2.1 rfl

/-- Counting lemma for C4: two functions that identify exactly the same
arguments produce images of the same cardinality. -/
theorem card_image_eq_of_eq_iff {α β γ : Type} [DecidableEq α] [DecidableEq β]
    [DecidableEq γ] {f : α → β} {g : α → γ}
    (h : ∀ x y, f x = f y ↔ g x = g y) (s : Finset α) :
    (s.image f).card = (s.image g).card := by
  induction s using Finset.induction_on with
  | empty => simp
  | insert hx ih =>
      rename_i a s'
      rw [Finset.image_insert, Finset.image_insert]
      by_cases hmem : f a ∈ s'.image f
      · obtain ⟨y, hy, hfy⟩ := Finset.mem_image.mp hmem
        have hg : g a ∈ s'.image g :=
          Finset.mem_image.mpr ⟨y, hy, (h y a).mp hfy⟩
        rw [Finset.card_insert_of_mem hmem, Finset.card_insert_of_mem hg, ih]
      · have hg : g a ∉ s'.image g := by
          intro hc
          obtain ⟨y, hy, hgy⟩ := Finset.mem_image.mp hc
          exact hmem (Finset.mem_image.mpr ⟨y, hy, (h y a).mpr hgy⟩)
        rw [Finset.card_insert_of_not_mem hmem, Finset.card_insert_of_not_mem hg, ih]

/-- C4: before the BSC table build, every address of the BSC discovery
output is mapped to its checksum form: the resulting set holds only
checksum-form addresses, two representations of the same underlying
address collapse, and the normalized set has exactly one element per
underlying (canonical) address. -/
theorem bsc_checksum_normalization (to_checksum_address canonical : String → String)
    (stakers_bsc : Finset String)
    (hcs : ∀ x y, to_checksum_address x = to_checksum_address y ↔ canonical x = canonical y) :
    (∀ a ∈ stakers_bsc_checksum to_checksum_address stakers_bsc,
       ∃ b ∈ stakers_bsc, a = to_checksum_address b) ∧
    (∀ a ∈ stakers_bsc, ∀ b ∈ stakers_bsc, canonical a = canonical b →
       to_checksum_address a = to_checksum_address b) ∧
    (stakers_bsc_checksum to_checksum_address stakers_bsc).card =
      (stakers_bsc.image canonical).card := by
  refine ⟨?_, ?_, ?_⟩
  · intro a ha
    obtain ⟨b, hb, hba⟩ := Finset.mem_image.mp ha
    exact ⟨b, hb, hba.symm⟩
  · intro a _ b _ hab
    exact (hcs a b).mpr hab
  · exact card_image_eq_of_eq_iff hcs stakers_bsc

/-- Witness for C4: the two differently-cased representations of one
address collapse to a single element. -/
theorem bsc_checksum_normalization_witness :
    (stakers_bsc_checksum checksumW {"ab", "aB"}).card =
      (({"ab", "aB"} : Finset String).image checksumW).card ∧
    (stakers_bsc_checksum checksumW {"ab", "aB"}).card = 1 :=
  ⟨(bsc_checksum_normalization checksumW checksumW {"ab", "aB"}
      (fun _ _ => Iff.rfl)).2.2,
   by decide⟩

/-! Step lemmas for the history-scan loop. -/

theorem bscLoop_succ (endpoint : Nat → Call (List BscTx)) (fuel startblock : Nat)
    (all_transactions : List BscTx) (requested : List Nat) :
    bscLoop endpoint (fuel + 1) startblock all_transactions requested =
      match endpoint startblock with
      | .error e => some (.error e)
      | .ok txs =>
        match txs.getLast? with
        | none => some (.ok (requested ++ [startblock], all_transactions))
        | some lastTx =>
          if txs.length < 10000 then
            some (.ok (requested ++ [startblock], all_transactions ++ txs))
          else
            bscLoop endpoint fuel (lastTx.blockNumber + 1)
              (all_transactions ++ txs) (requested ++ [startblock]) := rfl

theorem bscLoop_error {endpoint : Nat → Call (List BscTx)} {startblock : Nat} {e : String}
    (herr : endpoint startblock = .error e) (fuel : Nat)
    (all_transactions : List BscTx) (requested : List Nat) :
    bscLoop endpoint (fuel + 1) startblock all_transactions requested = some (.error e) := by
  rw [bscLoop_succ, herr]

theorem bscLoop_stop_empty {endpoint : Nat → Call (List BscTx)} {startblock : Nat}
    {page : List BscTx} (hok : endpoint startblock = .ok page)
    (hempty : page.getLast? = none) (fuel : Nat)
    (all_transactions : List BscTx) (requested : List Nat) :
    bscLoop endpoint (fuel + 1) startblock all_transactions requested =
      some (.ok (requested ++ [startblock], all_transactions)) := by
  rw [bscLoop_succ, hok]
  simp only [hempty]

theorem bscLoop_stop_short {endpoint : Nat → Call (List BscTx)} {startblock : Nat}
    {page : List BscTx} {lastTx : BscTx} (hok : endpoint startblock = .ok page)
    (hlast : page.getLast? = some lastTx) (hshort : page.length < 10000) (fuel : Nat)
    (all_transactions : List BscTx) (requested : List Nat) :
    bscLoop endpoint (fuel + 1) startblock all_transactions requested =
      some (.ok (requested ++ [startblock], all_transactions ++ page)) := by
  rw [bscLoop_succ, hok]
  simp only [hlast, if_pos hshort]

theorem bscLoop_continue {endpoint : Nat → Call (List BscTx)} {startblock : Nat}
    {page : List BscTx} {lastTx : BscTx} (hok : endpoint startblock = .ok page)
    (hlast : page.getLast? = some lastTx) (hfull : ¬ page.length < 10000) (fuel : Nat)
    (all_transactions : List BscTx) (requested : List Nat) :
    bscLoop endpoint (fuel + 1) startblock all_transactions requested =
      bscLoop endpoint fuel (lastTx.blockNumber + 1)
        (all_transactions ++ page) (requested ++ [startblock]) := by
  rw [bscLoop_succ, hok]
  simp only [hlast, if_neg hfull]

/-- C2: if the page at the initial cursor 34181130 has exactly 10000
transactions whose last element bounds every blockNumber of the page, and
the page at cursor (that blockNumber + 1) has 3 transactions, then the
discovery performs exactly the two page requests at those cursors and
returns the union of the sender sets of both pages; the last element (the
bound, hence the maximum) is in page 1, so the second cursor is the
maximum blockNumber of page 1 plus one. -/
theorem bsc_pagination_two_pages (endpoint : Nat → Call (List BscTx)) (fuel : Nat)
    (page1 page2 : List BscTx) (last1 : BscTx)
    (h1 : endpoint 34181130 = .ok page1)
    (hlen1 : page1.length = 10000)
    (hlast1 : page1.getLast? = some last1)
    (hmax1 : ∀ t ∈ page1, t.blockNumber ≤ last1.blockNumber)
    (h2 : endpoint (last1.blockNumber + 1) = .ok page2)
    (hlen2 : page2.length = 3) :
    fetch_staked_addresses_bsc endpoint (fuel + 2) =
      some (.ok ([34181130, last1.blockNumber + 1],
        (page1.map BscTx.sender).toFinset ∪ (page2.map BscTx.sender).toFinset)) ∧
    last1 ∈ page1 ∧
    (page1.map BscTx.blockNumber).maximum = some last1.blockNumber := by
  have hne2 : page2 ≠ [] := by
    intro hc
    rw [hc] at hlen2
    cases hlen2
  obtain ⟨last2, hlast2⟩ : ∃ x, page2.getLast? = some x := by
    cases hg : page2.getLast? with
    | none => exact absurd (List.getLast?_eq_none_iff.mp hg) hne2
    | some x => exact ⟨x, rfl⟩
  have hshort2 : page2.length < 10000 := by
    rw [hlen2]
    norm_num
  have hfull1 : ¬ page1.length < 10000 := by
    rw [hlen1]
    norm_num
  have hloop : bscLoop endpoint (fuel + 1 + 1) 34181130 [] [] =
      some (.ok ([34181130, last1.blockNumber + 1], page1 ++ page2)) := by
    rw [bscLoop_continue h1 hlast1 hfull1,
      bscLoop_stop_short h2 hlast2 hshort2]
    simp
  have hmem1 : last1 ∈ page1 := List.mem_of_mem_getLast? hlast1
  refine ⟨?_, hmem1, ?_⟩
  · unfold fetch_staked_addresses_bsc
    rw [hloop]
    show some (Except.ok ([34181130, last1.blockNumber + 1],
        ((page1 ++ page2).map BscTx.sender).toFinset)) = _
    rw [List.map_append, List.toFinset_append]
  · apply le_antisymm
    · apply List.maximum_le_of_forall_le
      intro b hb
      obtain ⟨t, ht, hbt⟩ := List.mem_map.mp hb
      exact WithBot.coe_le_coe.mpr (hbt ▸ hmax1 t ht)
    · exact List.le_maximum_of_mem' (List.mem_map_of_mem BscTx.blockNumber hmem1)

/-- Replicated lists end in the replicated element. -/
theorem getLast?_replicate {α : Type} (n : Nat) (x : α) :
    (List.replicate (n + 1) x).getLast? = some x := by
  induction n with
  | zero => rfl
  | succ k ih =>
      rw [List.replicate_succ, List.replicate_succ, List.getLast?_cons_cons,
        ← List.replicate_succ]
      exact ih

theorem pageOne_getLast : pageOne.getLast? = some ⟨"0xaa", 50000000⟩ := by
  have h : pageOne = List.replicate (9999 + 1) ⟨"0xaa", 50000000⟩ := rfl
  rw [h, getLast?_replicate]

theorem pageOne_max : ∀ t ∈ pageOne, t.blockNumber ≤ 50000000 := by
  intro t ht
  rw [List.eq_of_mem_replicate ht]

/-- Witness for C2: on the mocked endpoint with a full first page and a
3-transaction second page, the run makes exactly the two requests at
cursors 34181130 and 50000001 and returns the sender union. -/
theorem bsc_pagination_two_pages_witness :
    fetch_staked_addresses_bsc endpointW 2 =
      some (.ok ([34181130, 50000001],
        (pageOne.map BscTx.sender).toFinset ∪ (pageTwo.map BscTx.sender).toFinset)) ∧
    (⟨"0xaa", 50000000⟩ : BscTx) ∈ pageOne ∧
    (pageOne.map BscTx.blockNumber).maximum = some 50000000 :=
  bsc_pagination_two_pages endpointW 0 pageOne pageTwo ⟨"0xaa", 50000000⟩
    rfl (List.length_replicate 10000 _) pageOne_getLast pageOne_max rfl rfl

/-- C9: a failed page request in history-scan discovery is not isolated:
the error propagates out of the loop (at whatever reachable loop state,
including after a successful full first page) and out of the discovery
function, in contrast with the event-scan degrade-to-empty policy. -/
theorem bsc_page_failure_propagates (endpoint : Nat → Call (List BscTx)) (e : String) :
    (∀ fuel startblock all_transactions requested, endpoint startblock = .error e →
       bscLoop endpoint (fuel + 1) startblock all_transactions requested =
         some (.error e)) ∧
    (∀ fuel, endpoint 34181130 = .error e →
       fetch_staked_addresses_bsc endpoint (fuel + 1) = some (.error e)) ∧
    ∀ fuel startblock page lastTx all_transactions requested,
      endpoint startblock = .ok page → page.getLast? = some lastTx →
      page.length = 10000 → endpoint (lastTx.blockNumber + 1) = .error e →
      bscLoop endpoint (fuel + 2) startblock all_transactions requested =
        some (.error e) := by
  refine ⟨?_, ?_, ?_⟩
  · intro fuel startblock all_transactions requested herr
    exact bscLoop_error herr fuel all_transactions requested
  · intro fuel herr
    unfold fetch_staked_addresses_bsc
    rw [bscLoop_error herr fuel [] []]
  · intro fuel startblock page lastTx all_transactions requested hok hlast hlen herr
    have hfull : ¬ page.length < 10000 := by
      rw [hlen]
      norm_num
    rw [bscLoop_continue hok hlast hfull]
    exact bscLoop_error herr fuel _ _

/-- Witness for C9: an endpoint whose first page request fails makes the
whole discovery return that error. -/
theorem bsc_page_failure_propagates_witness :
    fetch_staked_addresses_bsc endpointFail 1 = some (.error "HTTP 502") :=
  (bsc_page_failure_propagates endpointFail "HTTP 502").2.1 0 rfl

/-- Removing one satisfying element strictly shrinks a filter when the
remaining predicate implies the original one. -/
theorem length_filter_lt_of_mem {α : Type} {l : List α} {p q : α → Bool} {a : α}
    (ha : a ∈ l) (hpa : p a = true) (hqa : q a = false)
    (himp : ∀ x, q x = true → p x = true) :
    (l.filter q).length < (l.filter p).length := by
  induction l with
  | nil => cases ha
  | cons x xs ih =>
      rcases List.mem_cons.mp ha with rfl | hmem
      · have h1 : ((a :: xs).filter p).length = (xs.filter p).length + 1 := by
          simp [List.filter_cons, hpa]
        have h2 : ((a :: xs).filter q).length = (xs.filter q).length := by
          simp [List.filter_cons, hqa]
        have hle : (xs.filter q).length ≤ (xs.filter p).length :=
          (List.monotone_filter_right xs fun y hy => himp y hy).length_le
        omega
      · have ihx := ih hmem
        cases hqx : q x with
        | false =>
            have h2 : ((x :: xs).filter q).length = (xs.filter q).length := by
              simp [List.filter_cons, hqx]
            have h1 : (xs.filter p).length ≤ ((x :: xs).filter p).length := by
              rw [List.filter_cons]
              cases p x <;> simp
            omega
        | true =>
            have hpx : p x = true := himp x hqx
            have h1 : ((x :: xs).filter p).length = (xs.filter p).length + 1 := by
              simp [List.filter_cons, hpx]
            have h2 : ((x :: xs).filter q).length = (xs.filter q).length + 1 := by
              simp [List.filter_cons, hqx]
            omega

/-- C10: over any endpoint drawing its pages from a fixed finite ledger,
with every non-empty page ending at or after the requested cursor, the
pagination loop stops with some result (performs finitely many requests)
whenever the fuel exceeds the number of ledger transactions at or after
the cursor; in particular discovery from the initial cursor finishes
within ledger-length + 1 page requests. -/
theorem bsc_pagination_terminates (endpoint : Nat → Call (List BscTx)) (ledger : List BscTx)
    (hmodel : ∀ startblock, ∃ page, endpoint startblock = .ok page ∧
        (∀ t ∈ page, t ∈ ledger) ∧
        ∀ lastTx, page.getLast? = some lastTx → startblock ≤ lastTx.blockNumber) :
    (∀ fuel startblock all_transactions requested,
       (ledger.filter fun t => startblock ≤ t.blockNumber).length < fuel →
       ∃ result, bscLoop endpoint fuel startblock all_transactions requested = some result) ∧
    ∃ result, fetch_staked_addresses_bsc endpoint (ledger.length + 1) = some result := by
  have hloop : ∀ fuel startblock all_transactions requested,
      (ledger.filter fun t => startblock ≤ t.blockNumber).length < fuel →
      ∃ result, bscLoop endpoint fuel startblock all_transactions requested = some result := by
    intro fuel
    induction fuel with
    | zero =>
        intro startblock all_transactions requested h
        omega
    | succ f ih =>
        intro startblock all_transactions requested hfuel
        obtain ⟨page, hok, hsub, hend⟩ := hmodel startblock
        cases hl : page.getLast? with
        | none => exact ⟨_, bscLoop_stop_empty hok hl f all_transactions requested⟩
        | some lastTx =>
            by_cases hshort : page.length < 10000
            · exact ⟨_, bscLoop_stop_short hok hl hshort f all_transactions requested⟩
            · have hsb : startblock ≤ lastTx.blockNumber := hend lastTx hl
              have hmemL : lastTx ∈ ledger := hsub lastTx (List.mem_of_mem_getLast? hl)
              have hdec : (ledger.filter fun t =>
                    lastTx.blockNumber + 1 ≤ t.blockNumber).length <
                  (ledger.filter fun t => startblock ≤ t.blockNumber).length := by
                apply length_filter_lt_of_mem hmemL
                · simp [hsb]
                · simp
                · intro x hx
                  simp only [decide_eq_true_eq] at hx ⊢
                  omega
              obtain ⟨result, hresult⟩ := ih (lastTx.blockNumber + 1)
                (all_transactions ++ page) (requested ++ [startblock]) (by omega)
              exact ⟨result, by rw [bscLoop_continue hok hl hshort]; exact hresult⟩
  refine ⟨hloop, ?_⟩
  have h0 : (ledger.filter fun t => 34181130 ≤ t.blockNumber).length < ledger.length + 1 := by
    have := ledger.length_filter_le fun t => decide (34181130 ≤ t.blockNumber)
    omega
  obtain ⟨result, hresult⟩ := hloop (ledger.length + 1) 34181130 [] [] h0
  cases result with
  | error e =>
      exact ⟨.error e, by unfold fetch_staked_addresses_bsc; rw [hresult]⟩
  | ok pr =>
      obtain ⟨reqs, txs⟩ := pr
      exact ⟨.ok (reqs, (txs.map BscTx.sender).toFinset), by
        unfold fetch_staked_addresses_bsc
        rw [hresult]⟩

/-- The filter-and-cap endpoint model satisfies the page model of the
termination theorem. -/
theorem endpointOf_model (ledger : List BscTx) :
    ∀ startblock, ∃ page, endpointOf ledger startblock = .ok page ∧
      (∀ t ∈ page, t ∈ ledger) ∧
      ∀ lastTx, page.getLast? = some lastTx → startblock ≤ lastTx.blockNumber := by
  intro startblock
  refine ⟨_, rfl, ?_, ?_⟩
  · intro t ht
    exact List.mem_of_mem_filter (List.mem_of_mem_take ht)
  · intro lastTx hlast
    have h1 := List.mem_of_mem_take (List.mem_of_mem_getLast? hlast)
    have h2 := List.of_mem_filter h1
    simpa using h2

/-- Witness for C10: discovery over the one-transaction ledger endpoint
terminates with a result within 2 page requests of fuel. -/
theorem bsc_pagination_terminates_witness :
    ∃ result, fetch_staked_addresses_bsc (endpointOf ledgerW) (ledgerW.length + 1) =
      some result :=
  (bsc_pagination_terminates (endpointOf ledgerW) ledgerW (endpointOf_model ledgerW)).2

end StakingSpec
